import Mathlib

/-!
Verification of the validation-and-persistence core of `FP-5.py`
(a tkinter customer-information form backed by SQLite).

The Python source is shallowly embedded:

* `pyStrip` models Python `str.strip()` (whitespace restricted to the
  ASCII whitespace characters, which covers every string appearing in
  the claims).
* `validate_birthday` models `datetime.strptime(bday, "%Y-%m-%d")`
  wrapped in try/except: CPython's `_strptime` compiles the format to
  the regular expression `(?P<Y>\d\d\d\d)\-(?P<m>1[0-2]|0[1-9]|[1-9])\-
  (?P<d>3[01]|[12]\d|0[1-9]|[1-9])`, requires the match to consume the
  whole string, and then builds a `date`, which additionally demands a
  real calendar date with year 1..9999.  The ordered regex alternation
  (with backtracking into the following literal `-`) is embedded
  directly; digits are modelled as ASCII digits.
* `validate_email` models `re.match` of `EMAIL_RE`, the pattern
  `^[^@\s]+@[^@\s]+\.[^@\s]+$`, as a backtracking matcher.  Python's
  `$` matches at the end of the string or just before a newline that
  ends the string.
* `validate_phone` models `re.match` of `PHONE_RE`, the pattern
  `^[0-9\s\-\+\(\)]{7,}$`, with the same `$` semantics.
* The record store models the SQLite table of `TABLE_SQL` as a list of
  rows, the `CHECK (preferred_contact IN ('Email','Phone','Mail'))`
  column constraint, and the commit-or-rollback transaction that
  `with con:` wraps around the single INSERT in `save_to_db`.
* `on_submit` models the submit handler: read the six widgets, strip,
  validate in the fixed field order, and either surface the ordered
  error list or attempt the insert.
-/

/-! ## Characters and Python `str.strip` -/

/-- Code-point range test for a regex character class such as `[0-2]`. -/
def inRange (lo hi : Nat) (c : Char) : Bool :=
  lo ≤ c.toNat && c.toNat ≤ hi

/-- ASCII whitespace as matched by Python `\s` and stripped by `str.strip()`:
space, tab, newline, carriage return, vertical tab, form feed. -/
def pySpace (c : Char) : Bool :=
  c == ' ' || c == '\t' || c == '\n' || c == '\r' || c == '\x0b' || c == '\x0c'

/-- Python `str.strip()`: drop leading and trailing whitespace. -/
def pyStrip (s : String) : String :=
  ⟨((s.data.dropWhile pySpace).reverse.dropWhile pySpace).reverse⟩

/-- An ASCII digit, the `\d` of the strptime regex. -/
def isDig (c : Char) : Bool := inRange 48 57 c

/-- Numeric value of an ASCII digit character. -/
def digitVal (c : Char) : Nat := c.toNat - 48

/-- The ASCII digit character for `n ≤ 9` (values above nine are clamped;
they never occur in the places where `digitChar` is used). -/
def digitChar : Nat → Char
  | 0 => '0' | 1 => '1' | 2 => '2' | 3 => '3' | 4 => '4'
  | 5 => '5' | 6 => '6' | 7 => '7' | 8 => '8' | _ => '9'

/-! ## `_validate_birthday`: `datetime.strptime(bday, "%Y-%m-%d")`

Each `altXY` function is one alternative of the ordered alternation in
CPython's compiled format regex; `mdMatch` tries the month alternatives
in regex order, backtracking into the literal `-` that follows. -/

/-- `\d\d\d\d` (the `%Y` directive): exactly four digits. -/
def matchYear : List Char → Option (Nat × List Char)
  | a :: b :: c :: d :: rest =>
    if isDig a && isDig b && isDig c && isDig d then
      some (1000 * digitVal a + 100 * digitVal b + 10 * digitVal c + digitVal d, rest)
    else none
  | _ => none

/-- Month alternative `1[0-2]`. -/
def altM10 : List Char → Option (Nat × List Char)
  | c1 :: c2 :: rest =>
    if c1 == '1' && inRange 48 50 c2 then some (10 + digitVal c2, rest) else none
  | _ => none

/-- Month alternative `0[1-9]`. -/
def altM0 : List Char → Option (Nat × List Char)
  | c1 :: c2 :: rest =>
    if c1 == '0' && inRange 49 57 c2 then some (digitVal c2, rest) else none
  | _ => none

/-- Month alternative `[1-9]`. -/
def altM1 : List Char → Option (Nat × List Char)
  | c1 :: rest => if inRange 49 57 c1 then some (digitVal c1, rest) else none
  | [] => none

/-- Day alternative `3[01]`. -/
def altD3 : List Char → Option (Nat × List Char)
  | c1 :: c2 :: rest =>
    if c1 == '3' && inRange 48 49 c2 then some (30 + digitVal c2, rest) else none
  | _ => none

/-- Day alternative `[12]\d`. -/
def altD12 : List Char → Option (Nat × List Char)
  | c1 :: c2 :: rest =>
    if inRange 49 50 c1 && isDig c2 then some (10 * digitVal c1 + digitVal c2, rest) else none
  | _ => none

/-- Day alternative `0[1-9]`. -/
def altD0 : List Char → Option (Nat × List Char)
  | c1 :: c2 :: rest =>
    if c1 == '0' && inRange 49 57 c2 then some (digitVal c2, rest) else none
  | _ => none

/-- Day alternative `[1-9]`. -/
def altD1 : List Char → Option (Nat × List Char)
  | c1 :: rest => if inRange 49 57 c1 then some (digitVal c1, rest) else none
  | [] => none

/-- `3[01]|[12]\d|0[1-9]|[1-9]` (the `%d` directive), ordered alternation.
Nothing follows the day in the pattern, so the first alternative that
matches is the one the regex engine keeps. -/
def dayMatch (cs : List Char) : Option (Nat × List Char) :=
  match altD3 cs with
  | some v => some v
  | none =>
    match altD12 cs with
    | some v => some v
    | none =>
      match altD0 cs with
      | some v => some v
      | none => altD1 cs

/-- Continue a month alternative with the literal `-` and the day. -/
def afterMonth : Option (Nat × List Char) → Option (Nat × Nat × List Char)
  | some (m, c :: r) =>
    if c == '-' then (dayMatch r).map fun p => (m, p.1, p.2) else none
  | _ => none

/-- `(1[0-2]|0[1-9]|[1-9])\-(3[01]|[12]\d|0[1-9]|[1-9])`: the regex engine
tries the month alternatives in order and backtracks to the next one when
the following literal `-` or the day fails to match. -/
def mdMatch (cs : List Char) : Option (Nat × Nat × List Char) :=
  match afterMonth (altM10 cs) with
  | some v => some v
  | none =>
    match afterMonth (altM0 cs) with
    | some v => some v
    | none => afterMonth (altM1 cs)

/-- Gregorian leap year, as in Python's `datetime`. -/
def isLeap (y : Nat) : Bool := (y % 4 == 0 && y % 100 != 0) || y % 400 == 0

/-- Days in a month, as in Python's `datetime`. -/
def daysInMonth (y m : Nat) : Nat :=
  if m == 2 then (if isLeap y then 29 else 28)
  else if m == 4 || m == 6 || m == 9 || m == 11 then 30
  else 31

/-- Validity check done by the `datetime.date` constructor:
year 1..9999 and a real calendar day. -/
def dateOk (y m d : Nat) : Bool :=
  1 ≤ y && y ≤ 9999 && 1 ≤ m && m ≤ 12 && 1 ≤ d && d ≤ daysInMonth y m

/-- The whole of `datetime.strptime(s, "%Y-%m-%d")`: regex match from the
start of the string, returning year, month, day and the unconsumed tail. -/
def strptimeYmd (s : String) : Option (Nat × Nat × Nat × List Char) :=
  match matchYear s.data with
  | some (y, c :: r) =>
    if c == '-' then (mdMatch r).map fun p => (y, p.1, p.2.1, p.2.2) else none
  | _ => none

/-- `CustomerApp._validate_birthday`: `strptime` succeeds iff the regex
consumes the whole string (`unconverted data remains` otherwise) and the
matched numbers form a valid `datetime.date`. -/
def validate_birthday (s : String) : Bool :=
  match strptimeYmd s with
  | some (y, m, d, rest) => rest.isEmpty && dateOk y m d
  | none => false

/-! ## `_validate_name`, `_validate_address` -/

/-- `CustomerApp._validate_name`: `bool(name.strip())`. -/
def validate_name (s : String) : Bool := !(pyStrip s).isEmpty

/-- `CustomerApp._validate_address`: `len(address.strip()) > 0`. -/
def validate_address (s : String) : Bool := decide (0 < (pyStrip s).length)

/-! ## `_validate_email`: `EMAIL_RE = ^[^@\s]+@[^@\s]+\.[^@\s]+$`

A direct backtracking matcher for this one pattern.  `tailStar` plays the
role of `[^@\s]*$`; Python's `$` succeeds at the end of the string or
just before a newline that is the last character, which is the
`c == '\n' && rest.isEmpty` disjunct. -/

/-- The class `[^@\s]`. -/
def emailChar (c : Char) : Bool := !(c == '@') && !(pySpace c)

/-- `[^@\s]*$` with Python `$` semantics. -/
def tailStar : List Char → Bool
  | [] => true
  | c :: rest => (c == '\n' && rest.isEmpty) || (emailChar c && tailStar rest)

/-- `[^@\s]+$`. -/
def tailPlus : List Char → Bool
  | [] => false
  | c :: rest => emailChar c && tailStar rest

/-- `[^@\s]*\.[^@\s]+$`: either end the part before the dot here, or
consume one more class character (backtracking alternation). -/
def dotTailStar : List Char → Bool
  | [] => false
  | c :: rest => (c == '.' && tailPlus rest) || (emailChar c && dotTailStar rest)

/-- `[^@\s]+\.[^@\s]+$`. -/
def dotTailPlus : List Char → Bool
  | [] => false
  | c :: rest => emailChar c && dotTailStar rest

/-- `[^@\s]*@[^@\s]+\.[^@\s]+$`. -/
def afterAtStar : List Char → Bool
  | [] => false
  | c :: rest => (c == '@' && dotTailPlus rest) || (emailChar c && afterAtStar rest)

/-- The whole `EMAIL_RE` pattern (`re.match` anchors at the start). -/
def emailMatch : List Char → Bool
  | [] => false
  | c :: rest => emailChar c && afterAtStar rest

/-- `CustomerApp._validate_email`: `bool(EMAIL_RE.match(email))`. -/
def validate_email (s : String) : Bool := emailMatch s.data

/-! ## `_validate_phone`: `PHONE_RE = ^[0-9\s\-\+\(\)]{7,}$` -/

/-- The class `[0-9\s\-\+\(\)]`. -/
def phoneChar (c : Char) : Bool :=
  inRange 48 57 c || pySpace c || c == '-' || c == '+' || c == '(' || c == ')'

/-- `[0-9\s\-\+\(\)]*$` with Python `$` semantics. -/
def classStarEnd : List Char → Bool
  | [] => true
  | c :: rest => (c == '\n' && rest.isEmpty) || (phoneChar c && classStarEnd rest)

/-- Consume exactly `n` mandatory class characters (the `{7,}` minimum). -/
def classN : Nat → List Char → Option (List Char)
  | 0, l => some l
  | _ + 1, [] => none
  | n + 1, c :: rest => if phoneChar c then classN n rest else none

/-- The whole `PHONE_RE` pattern. -/
def phoneMatch (l : List Char) : Bool :=
  match classN 7 l with
  | some r => classStarEnd r
  | none => false

/-- `CustomerApp._validate_phone`: `bool(PHONE_RE.match(phone))`. -/
def validate_phone (s : String) : Bool := phoneMatch s.data

/-! ## Preferred contact and the aggregate validation of `on_submit` -/

/-- The test `contact in {"Email", "Phone", "Mail"}` from `on_submit`
(also the three-value enum of the schema CHECK constraint). -/
def validContact (c : String) : Bool := c == "Email" || c == "Phone" || c == "Mail"

/-- The six raw field strings handed over by the form widgets. -/
structure Fields where
  name : String
  bday : String
  email : String
  phone : String
  address : String
  contact : String
  deriving Repr, DecidableEq

/-- `.strip()` applied to each field, as in the first six lines of
`on_submit`. -/
def stripFields (f : Fields) : Fields :=
  ⟨pyStrip f.name, pyStrip f.bday, pyStrip f.email,
   pyStrip f.phone, pyStrip f.address, pyStrip f.contact⟩

def msgName : String := "• Name is required."
def msgBday : String := "• Birthday must be in YYYY-MM-DD format (e.g., 2001-04-09)."
def msgEmail : String := "• Email appears invalid (e.g., name@example.com)."
def msgPhone : String := "• Phone appears invalid (allow digits, spaces, +, -, parentheses)."
def msgAddress : String := "• Address is required."
def msgContact : String := "• Preferred contact must be Email, Phone, or Mail."

/-- The error-accumulation block of `on_submit` (lines 169-181 of
`FP-5.py`), applied to the already-stripped values: each check appends
its message independently, in field order. -/
def validate_all (f : Fields) : List String :=
  (if validate_name f.name then [] else [msgName]) ++
  (if validate_birthday f.bday then [] else [msgBday]) ++
  (if validate_email f.email then [] else [msgEmail]) ++
  (if validate_phone f.phone then [] else [msgPhone]) ++
  (if validate_address f.address then [] else [msgAddress]) ++
  (if validContact f.contact then [] else [msgContact])

/-! ## The record store: `TABLE_SQL`, `save_to_db`, `init_db`

A row of the `customers` table, minus the backend-assigned `id` and
`created_at` (the row's position in the list plays the role of the
monotonically increasing `id`; `created_at` is wall-clock time, out of
scope).  The `CHECK (preferred_contact IN ('Email','Phone','Mail'))`
schema constraint is enforced by `execInsert`, and the `with con:` block
of `save_to_db` is modelled as SQLite's commit-or-rollback transaction:
the insert lands in the connection's pending transaction and becomes
visible only on commit.  I/O failures of the backend (disk errors and
the like) are nondeterministic inputs, modelled by the two failure
flags. -/

structure Customer where
  name : String
  bday : String
  email : String
  phone : String
  address : String
  contact : String
  deriving Repr, DecidableEq

/-- The two storage-layer error kinds of the specification:
`IntegrityError` from the CHECK constraint, and any I/O failure. -/
inductive DbError where
  | constraintViolation
  | storageUnavailable
  deriving Repr, DecidableEq

/-- An open SQLite connection: the committed table contents plus the
rows inserted by the still-open transaction. -/
structure Conn where
  committed : List Customer
  pending : List Customer
  deriving Repr, DecidableEq

/-- `con.execute("INSERT INTO customers ...", data)`: the schema CHECK
constraint rejects a `preferred_contact` outside the enum; otherwise the
row joins the pending transaction.  `execFail` injects an I/O failure. -/
def execInsert (c : Conn) (r : Customer) (execFail : Bool) : Except DbError Conn :=
  if execFail then .error .storageUnavailable
  else if validContact r.contact then .ok { c with pending := c.pending ++ [r] }
  else .error .constraintViolation

/-- Transaction commit (the successful exit of `with con:`): the pending
rows become visible atomically.  `commitFail` injects an I/O failure. -/
def commitTx (c : Conn) (commitFail : Bool) : Except DbError Conn :=
  if commitFail then .error .storageUnavailable
  else .ok { committed := c.committed ++ c.pending, pending := [] }

/-- Transaction rollback (the exceptional exit of `with con:`). -/
def rollbackTx (c : Conn) : Conn := { c with pending := [] }

/-- `CustomerApp.save_to_db`: open a connection on the stored table,
run the single INSERT inside `with con:`, commit on success and roll
back on any exception, close the connection.  Returns the table as
visible after the connection closes, plus the error if one occurred. -/
def save_to_db (db : List Customer) (r : Customer) (execFail commitFail : Bool) :
    List Customer × Option DbError :=
  let c0 : Conn := { committed := db, pending := [] }
  match execInsert c0 r execFail with
  | .error e => ((rollbackTx c0).committed, some e)
  | .ok c1 =>
    match commitTx c1 commitFail with
    | .error e => ((rollbackTx c1).committed, some e)
    | .ok c2 => (c2.committed, none)

/-- What the submit handler reports back to the user. -/
inductive Outcome where
  | validationError (msgs : List String)
  | saved
  | storageError (e : DbError)
  deriving Repr, DecidableEq

/-- A `Fields` value repackaged as the dict passed to `save_to_db`. -/
def mkCustomer (f : Fields) : Customer :=
  ⟨f.name, f.bday, f.email, f.phone, f.address, f.contact⟩

/-- `CustomerApp.on_submit`: strip the six raw widget values, run the
six checks accumulating messages, and either show the error list
(leaving the store untouched) or attempt the insert. -/
def on_submit (f : Fields) (db : List Customer) (execFail commitFail : Bool) :
    List Customer × Outcome :=
  let g := stripFields f
  let errors := validate_all g
  if errors.isEmpty then
    match save_to_db db (mkCustomer g) execFail commitFail with
    | (db2, none) => (db2, .saved)
    | (db2, some e) => (db2, .storageError e)
  else (db, .validationError errors)

/-- The table states reachable from an empty store by submissions: the
only operation that ever writes is `on_submit` (no update, no delete). -/
inductive Reach : List Customer → Prop
  | init : Reach []
  | step (db : List Customer) (f : Fields) (execFail commitFail : Bool) :
      Reach db → Reach (on_submit f db execFail commitFail).1

/-- All field constraints of the data model, on one stored row. -/
def rowValid (r : Customer) : Bool :=
  validate_name r.name && validate_birthday r.bday && validate_email r.email &&
    validate_phone r.phone && validate_address r.address && validContact r.contact

/-- The column list of `TABLE_SQL`. -/
def customersColumns : List String :=
  ["id", "name", "birthday", "email", "phone", "address", "preferred_contact", "created_at"]

/-- The persistent store as a whole: the schema (present or absent, with
its column list) and the rows. -/
structure Store where
  schema : Option (List String)
  rows : List Customer
  deriving Repr, DecidableEq

/-- `init_db`: executes `CREATE TABLE IF NOT EXISTS customers (...)` —
creates the schema when the table is absent and is a no-op otherwise,
never touching rows. -/
def init_db (st : Store) : Store :=
  match st.schema with
  | some _ => st
  | none => { st with schema := some customersColumns }

/-! ## Spec-side definitions, written from the specification's words

These are deliberately phrased after the natural-language claims, to be
compared with the embedded code above. -/

/-- The two-digit zero-padded rendering of a month or day. -/
def pad2 (n : Nat) : String := ⟨[digitChar (n / 10), digitChar (n % 10)]⟩

/-- The four-digit zero-padded rendering of a year. -/
def pad4 (n : Nat) : String :=
  ⟨[digitChar (n / 1000), digitChar (n / 100 % 10), digitChar (n / 10 % 10), digitChar (n % 10)]⟩

/-- A single (unpadded) digit rendering. -/
def digitStr (n : Nat) : String := ⟨[digitChar n]⟩

/-- The exact `YYYY-MM-DD` rendering of a calendar date. -/
def renderDate (y m d : Nat) : String := pad4 y ++ "-" ++ pad2 m ++ "-" ++ pad2 d

/-- Spec-side reading of claim C2: the string is exactly the
`YYYY-MM-DD` rendering of some valid calendar date. -/
def IsCanonicalDate (s : String) : Prop :=
  ∃ y m d : Nat, dateOk y m d = true ∧ s = renderDate y m d

/-- What the code actually accepts: year rendered with exactly four
digits, month and day each either zero-padded to two digits or written
as a bare single digit. -/
def FlexDate (s : String) : Prop :=
  ∃ y m d : Nat, ∃ ms ds : String,
    dateOk y m d = true ∧
    (ms = pad2 m ∨ (m ≤ 9 ∧ ms = digitStr m)) ∧
    (ds = pad2 d ∨ (d ≤ 9 ∧ ds = digitStr d)) ∧
    s = pad4 y ++ "-" ++ ms ++ "-" ++ ds

/-- Spec-side reading of claim C4: one or more non-`@` non-whitespace
characters, `@`, one or more, `.`, one or more, spanning the whole
string. -/
def EmailSpec (s : String) : Prop :=
  ∃ a b c : List Char, a ≠ [] ∧ b ≠ [] ∧ c ≠ [] ∧
    a.all emailChar = true ∧ b.all emailChar = true ∧ c.all emailChar = true ∧
    s.data = a ++ '@' :: b ++ '.' :: c

/-- Spec-side reading of claim C5, with "space" read literally as the
space character: only digits, spaces, `+`, `-`, `(`, `)`. -/
def spacePhoneChar (c : Char) : Bool :=
  inRange 48 57 c || c == ' ' || c == '-' || c == '+' || c == '(' || c == ')'

/-- Spec-side reading of claim C5 as a whole. -/
def SpecPhone (s : String) : Bool :=
  decide (7 ≤ s.length) && s.data.all spacePhoneChar


/-! ## Digit-character lemmas -/

theorem digitChar_toNat {n : Nat} (h : n ≤ 9) : (digitChar n).toNat = 48 + n := by
  interval_cases n <;> decide

theorem digitChar_ofNat {n : Nat} (h : n ≤ 9) : digitChar n = Char.ofNat (48 + n) := by
  interval_cases n <;> decide

theorem digitVal_digitChar {n : Nat} (h : n ≤ 9) : digitVal (digitChar n) = n := by
  unfold digitVal; rw [digitChar_toNat h]; omega

theorem digitChar_digitVal {c : Char} (h : isDig c = true) : digitChar (digitVal c) = c := by
  have h1 : 48 ≤ c.toNat ∧ c.toNat ≤ 57 := by
    simpa [isDig, inRange, Bool.and_eq_true, decide_eq_true_iff] using h
  have h2 : digitVal c ≤ 9 := by unfold digitVal; omega
  rw [digitChar_ofNat h2]
  have h3 : 48 + digitVal c = c.toNat := by unfold digitVal; omega
  rw [h3, Char.ofNat_toNat]

theorem isDig_digitChar {n : Nat} (h : n ≤ 9) : isDig (digitChar n) = true := by
  simp [isDig, inRange, digitChar_toNat h, decide_eq_true_iff]
  omega

/-! ## Characterization of the phone matcher -/

theorem classStarEnd_iff (l : List Char) : classStarEnd l = true ↔ l.all phoneChar = true := by
  induction l with
  | nil => simp [classStarEnd]
  | cons c rest ih =>
    simp only [classStarEnd, Bool.or_eq_true, Bool.and_eq_true, List.all_cons, beq_iff_eq,
      List.isEmpty_iff, ih]
    constructor
    · rintro (⟨rfl, rfl⟩ | ⟨hc, hr⟩)
      · exact ⟨by decide, by simp⟩
      · exact ⟨hc, hr⟩
    · rintro ⟨hc, hr⟩
      exact Or.inr ⟨hc, hr⟩

theorem phoneAux (n : Nat) : ∀ l : List Char,
    (match classN n l with | some r => classStarEnd r | none => false) = true ↔
      n ≤ l.length ∧ l.all phoneChar = true := by
  induction n with
  | zero => intro l; simpa [classN] using classStarEnd_iff l
  | succ n ih =>
    intro l
    cases l with
    | nil => simp [classN]
    | cons c rest =>
      cases hc : phoneChar c with
      | true =>
        simpa [classN, hc, Nat.succ_le_succ_iff] using ih rest
      | false => simp [classN, hc]

theorem phoneMatch_iff (l : List Char) :
    phoneMatch l = true ↔ 7 ≤ l.length ∧ l.all phoneChar = true := phoneAux 7 l

/-! ## Concrete sample inputs used by witnesses -/

/-- The all-invalid submission from the specification. -/
def allInvalid : Fields := ⟨"", "1990-13-40", "bad", "123", "", "Fax"⟩

/-- The all-valid submission from the specification, as raw widget values
(the email carries surrounding spaces; the address Text widget always
reports a trailing newline). -/
def janeInput : Fields :=
  ⟨"Jane Doe", "1990-05-12", " jane@example.com ", "555-123-4567", "1 Main St\n", "Email"⟩

/-- The same submission with every field already stripped. -/
def janeStripped : Fields :=
  ⟨"Jane Doe", "1990-05-12", "jane@example.com", "555-123-4567", "1 Main St", "Email"⟩

/-- The row that `janeInput` persists. -/
def janeRow : Customer :=
  ⟨"Jane Doe", "1990-05-12", "jane@example.com", "555-123-4567", "1 Main St", "Email"⟩

/-- A well-formed record except for an out-of-enum contact preference. -/
def faxRow : Customer :=
  ⟨"Ann Lee", "2000-01-01", "ann@example.com", "1234567", "2 Oak Ave", "Fax"⟩

/-! ## Shared lemmas about the aggregate validation -/

theorem if_msg_nil (b : Bool) (m : String) :
    ((if b then ([] : List String) else [m]) = []) ↔ b = true := by
  cases b <;> simp

theorem validate_all_nil_iff (f : Fields) :
    validate_all f = [] ↔
      (validate_name f.name = true ∧ validate_birthday f.bday = true ∧
       validate_email f.email = true ∧ validate_phone f.phone = true ∧
       validate_address f.address = true ∧ validContact f.contact = true) := by
  simp [validate_all, List.append_eq_nil, if_msg_nil]

/-- C1.  The aggregate validation runs all six checks independently, puts
exactly one message per failing check in the fixed field order (name,
birthday, email, phone, address, contact preference), returns `[]` iff
every field is acceptable, and on the all-invalid submission returns
exactly the six messages in order. -/
theorem c1_validate_all_spec :
    (∀ f : Fields,
      (validate_all f = [] ↔
        (validate_name f.name = true ∧ validate_birthday f.bday = true ∧
         validate_email f.email = true ∧ validate_phone f.phone = true ∧
         validate_address f.address = true ∧ validContact f.contact = true)) ∧
      (msgName ∈ validate_all f ↔ validate_name f.name = false) ∧
      (msgBday ∈ validate_all f ↔ validate_birthday f.bday = false) ∧
      (msgEmail ∈ validate_all f ↔ validate_email f.email = false) ∧
      (msgPhone ∈ validate_all f ↔ validate_phone f.phone = false) ∧
      (msgAddress ∈ validate_all f ↔ validate_address f.address = false) ∧
      (msgContact ∈ validate_all f ↔ validContact f.contact = false)) ∧
    validate_all allInvalid =
      [msgName, msgBday, msgEmail, msgPhone, msgAddress, msgContact] := by
  refine ⟨fun f => ⟨validate_all_nil_iff f, ?_⟩, by decide⟩
  cases h1 : validate_name f.name <;> cases h2 : validate_birthday f.bday <;>
    cases h3 : validate_email f.email <;> cases h4 : validate_phone f.phone <;>
    cases h5 : validate_address f.address <;> cases h6 : validContact f.contact <;>
    simp only [validate_all, h1, h2, h3, h4, h5, h6] <;> decide

/-- C3.  When any field check fails, the submit handler leaves the store
untouched and surfaces the ordered violation list; the save path (and
with it the INSERT) is never taken. -/
theorem c3_validation_blocks_insert (f : Fields) (db : List Customer) (ef cf : Bool)
    (h : validate_all (stripFields f) ≠ []) :
    on_submit f db ef cf = (db, Outcome.validationError (validate_all (stripFields f))) := by
  unfold on_submit
  rw [if_neg]
  simpa [List.isEmpty_iff] using h

theorem c3_witness :
    validate_all (stripFields allInvalid) ≠ [] ∧
    on_submit allInvalid [] false false =
      ([], Outcome.validationError (validate_all (stripFields allInvalid))) :=
  ⟨by decide, c3_validation_blocks_insert allInvalid [] false false (by decide)⟩

/-- C7.  With the Validator bypassed (a direct call to `save_to_db`) and
the backend reachable, a record whose `preferred_contact` lies outside
the enum is rejected by the schema CHECK constraint: the call fails with
the constraint violation and the table is unchanged. -/
theorem c7_schema_enforces_enum (db : List Customer) (r : Customer)
    (h : validContact r.contact = false) :
    save_to_db db r false false = (db, some DbError.constraintViolation) := by
  simp [save_to_db, execInsert, rollbackTx, h]

theorem c7_witness :
    validContact faxRow.contact = false ∧
    save_to_db [] faxRow false false = ([], some DbError.constraintViolation) :=
  ⟨by decide, c7_schema_enforces_enum [] faxRow (by decide)⟩

/-- C8.  The insert is atomic: whenever `save_to_db` reports an error the
table is exactly as before, on success the one new row is appended, and
an I/O failure during the write surfaces as the storage error. -/
theorem c8_insert_atomic (db : List Customer) (r : Customer) (ef cf : Bool) :
    ((save_to_db db r ef cf).2.isSome → (save_to_db db r ef cf).1 = db) ∧
    ((save_to_db db r ef cf).2 = none → (save_to_db db r ef cf).1 = db ++ [r]) ∧
    save_to_db db r true cf = (db, some DbError.storageUnavailable) := by
  unfold save_to_db execInsert commitTx rollbackTx
  cases ef <;> cases cf <;> cases hv : validContact r.contact <;> simp [hv]

theorem c8_witness :
    (save_to_db [] janeRow true false).1 = [] ∧
    (save_to_db [] janeRow false true).1 = [] ∧
    (save_to_db [] janeRow false false).1 = [] ++ [janeRow] :=
  ⟨(c8_insert_atomic [] janeRow true false).1 (by decide),
   (c8_insert_atomic [] janeRow false true).1 (by decide),
   (c8_insert_atomic [] janeRow false false).2.1 (by decide)⟩

/-- C9.  `init_db` is idempotent: a second call changes nothing, rows
always survive unchanged, an absent schema is created as the `customers`
table, and a pre-existing schema is left exactly as it was. -/
theorem c9_init_db_idempotent (st : Store) :
    init_db (init_db st) = init_db st ∧
    (init_db st).rows = st.rows ∧
    (init_db st).schema = some (st.schema.getD customersColumns) := by
  cases h : st.schema <;> simp [init_db, h]

/-- C10.  Every raw field is stripped before validation and before
storage: submissions agreeing after stripping behave identically, and
the spec's all-valid submission — whose raw email carries surrounding
spaces and whose raw address carries the Text widget's trailing newline
— is accepted and stored in stripped form, even though the email check
itself rejects the spaced string. -/
theorem c10_strip_before_use (f1 f2 : Fields) (db : List Customer) (ef cf : Bool)
    (h : stripFields f1 = stripFields f2) :
    on_submit f1 db ef cf = on_submit f2 db ef cf ∧
    on_submit janeInput [] false false = ([janeRow], Outcome.saved) ∧
    validate_email janeInput.email = false := by
  refine ⟨?_, by decide, by decide⟩
  unfold on_submit
  rw [h]

theorem c10_witness :
    stripFields janeInput = stripFields janeStripped ∧
    on_submit janeInput [] false false = on_submit janeStripped [] false false :=
  ⟨by decide, (c10_strip_before_use janeInput janeStripped [] false false (by decide)).1⟩

/-- One submission either leaves the table unchanged or appends exactly
the stripped, fully validated record. -/
theorem on_submit_fst (f : Fields) (db : List Customer) (ef cf : Bool) :
    (on_submit f db ef cf).1 = db ∨
      ((on_submit f db ef cf).1 = db ++ [mkCustomer (stripFields f)] ∧
        validate_all (stripFields f) = []) := by
  unfold on_submit save_to_db execInsert commitTx rollbackTx
  cases he : (validate_all (stripFields f)).isEmpty
  · simp [he]
  · have hnil : validate_all (stripFields f) = [] := by rwa [List.isEmpty_iff] at he
    cases ef <;> cases cf <;>
      cases hv : validContact (mkCustomer (stripFields f)).contact <;>
      simp [he, hv, hnil]

/-- C6.  Every row of every table state reachable from the empty store
satisfies all field constraints of the data model: validation runs
before the write, and no other operation (there is no update or delete)
can introduce a row. -/
theorem c6_persisted_rows_valid (db : List Customer) (h : Reach db) :
    ∀ r ∈ db, rowValid r = true := by
  induction h with
  | init => intro r hr; simp at hr
  | step db f ef cf hr ih =>
    intro r hrm
    rcases on_submit_fst f db ef cf with h1 | ⟨h1, h2⟩
    · rw [h1] at hrm
      exact ih r hrm
    · rw [h1] at hrm
      rcases List.mem_append.mp hrm with hm | hm
      · exact ih r hm
      · have hr2 : r = mkCustomer (stripFields f) := by simpa using hm
        subst hr2
        obtain ⟨hn, hb, he, hp, ha, hc⟩ := (validate_all_nil_iff _).mp h2
        simp [rowValid, mkCustomer, stripFields] at *
        exact ⟨⟨⟨⟨⟨hn, hb⟩, he⟩, hp⟩, ha⟩, hc⟩

theorem c6_witness : rowValid janeRow = true := by
  have h1 : Reach (on_submit janeInput [] false false).1 :=
    Reach.step [] janeInput false false Reach.init
  exact c6_persisted_rows_valid (on_submit janeInput [] false false).1 h1 janeRow (by decide)

/-! ## Characterization of the email matcher -/

theorem tailStar_iff (l : List Char) :
    tailStar l = true ↔
      (l.all emailChar = true ∨ ∃ u, u.all emailChar = true ∧ l = u ++ ['\n']) := by
  induction l with
  | nil => simp [tailStar]
  | cons c rest ih =>
    simp only [tailStar, Bool.or_eq_true, Bool.and_eq_true, beq_iff_eq, List.isEmpty_iff, ih]
    constructor
    · rintro (⟨rfl, rfl⟩ | ⟨hc, hall | ⟨u, hu, rfl⟩⟩)
      · exact Or.inr ⟨[], by simp, by simp⟩
      · exact Or.inl (by simp [List.all_cons, hc, hall])
      · exact Or.inr ⟨c :: u, by simp [List.all_cons, hc, hu], by simp⟩
    · rintro (hall | ⟨u, hu, hl⟩)
      · rw [List.all_cons, Bool.and_eq_true] at hall
        exact Or.inr ⟨hall.1, Or.inl hall.2⟩
      · cases u with
        | nil =>
          simp at hl
          exact Or.inl ⟨hl.1, hl.2⟩
        | cons c' u' =>
          simp at hl
          rw [List.all_cons, Bool.and_eq_true] at hu
          rcases hl with ⟨rfl, rfl⟩
          exact Or.inr ⟨hu.1, Or.inr ⟨u', hu.2, rfl⟩⟩

theorem tailPlus_iff (l : List Char) :
    tailPlus l = true ↔
      ((l ≠ [] ∧ l.all emailChar = true) ∨
        ∃ u, u ≠ [] ∧ u.all emailChar = true ∧ l = u ++ ['\n']) := by
  cases l with
  | nil =>
    simp only [tailPlus]
    constructor
    · intro h; exact absurd h (by simp)
    · rintro (⟨h, _⟩ | ⟨u, hu, _, h⟩)
      · exact absurd rfl h
      · exact absurd h.symm (by simp [hu])
  | cons c rest =>
    simp only [tailPlus, Bool.and_eq_true, tailStar_iff]
    constructor
    · rintro ⟨hc, hall | ⟨u, hu, rfl⟩⟩
      · exact Or.inl ⟨by simp, by simp [List.all_cons, hc, hall]⟩
      · exact Or.inr ⟨c :: u, by simp, by simp [List.all_cons, hc, hu], by simp⟩
    · rintro (⟨_, hall⟩ | ⟨u, hune, hu, hl⟩)
      · rw [List.all_cons, Bool.and_eq_true] at hall
        exact ⟨hall.1, Or.inl hall.2⟩
      · cases u with
        | nil => exact absurd rfl hune
        | cons c' u' =>
          simp at hl
          rw [List.all_cons, Bool.and_eq_true] at hu
          rcases hl with ⟨rfl, rfl⟩
          exact ⟨hu.1, Or.inr ⟨u', hu.2, rfl⟩⟩

theorem dotTailStar_iff (l : List Char) :
    dotTailStar l = true ↔
      ∃ b r, b.all emailChar = true ∧ tailPlus r = true ∧ l = b ++ '.' :: r := by
  induction l with
  | nil =>
    simp only [dotTailStar]
    constructor
    · intro h; exact absurd h (by simp)
    · rintro ⟨b, r, _, _, h⟩
      exact absurd h.symm (by simp)
  | cons c rest ih =>
    simp only [dotTailStar, Bool.or_eq_true, Bool.and_eq_true, beq_iff_eq, ih]
    constructor
    · rintro (⟨rfl, hp⟩ | ⟨hc, b, r, hb, hp, rfl⟩)
      · exact ⟨[], rest, by simp, hp, by simp⟩
      · exact ⟨c :: b, r, by simp [List.all_cons, hc, hb], hp, by simp⟩
    · rintro ⟨b, r, hb, hp, heq⟩
      cases b with
      | nil =>
        simp at heq
        rcases heq with ⟨rfl, rfl⟩
        exact Or.inl ⟨rfl, hp⟩
      | cons c' b' =>
        simp at heq
        rw [List.all_cons, Bool.and_eq_true] at hb
        rcases heq with ⟨rfl, rfl⟩
        exact Or.inr ⟨hb.1, b', r, hb.2, hp, rfl⟩

theorem dotTailPlus_iff (l : List Char) :
    dotTailPlus l = true ↔
      ∃ b r, b ≠ [] ∧ b.all emailChar = true ∧ tailPlus r = true ∧ l = b ++ '.' :: r := by
  cases l with
  | nil =>
    simp only [dotTailPlus]
    constructor
    · intro h; exact absurd h (by simp)
    · rintro ⟨b, r, _, _, _, h⟩
      exact absurd h.symm (by simp)
  | cons c rest =>
    simp only [dotTailPlus, Bool.and_eq_true, dotTailStar_iff]
    constructor
    · rintro ⟨hc, b, r, hb, hp, rfl⟩
      exact ⟨c :: b, r, by simp, by simp [List.all_cons, hc, hb], hp, by simp⟩
    · rintro ⟨b, r, hbne, hb, hp, heq⟩
      cases b with
      | nil => exact absurd rfl hbne
      | cons c' b' =>
        simp at heq
        rw [List.all_cons, Bool.and_eq_true] at hb
        rcases heq with ⟨rfl, rfl⟩
        exact ⟨hb.1, b', r, hb.2, hp, rfl⟩

theorem afterAtStar_iff (l : List Char) :
    afterAtStar l = true ↔
      ∃ a r, a.all emailChar = true ∧ dotTailPlus r = true ∧ l = a ++ '@' :: r := by
  induction l with
  | nil =>
    simp only [afterAtStar]
    constructor
    · intro h; exact absurd h (by simp)
    · rintro ⟨a, r, _, _, h⟩
      exact absurd h.symm (by simp)
  | cons c rest ih =>
    simp only [afterAtStar, Bool.or_eq_true, Bool.and_eq_true, beq_iff_eq, ih]
    constructor
    · rintro (⟨rfl, hp⟩ | ⟨hc, a, r, ha, hp, rfl⟩)
      · exact ⟨[], rest, by simp, hp, by simp⟩
      · exact ⟨c :: a, r, by simp [List.all_cons, hc, ha], hp, by simp⟩
    · rintro ⟨a, r, ha, hp, heq⟩
      cases a with
      | nil =>
        simp at heq
        rcases heq with ⟨rfl, rfl⟩
        exact Or.inl ⟨rfl, hp⟩
      | cons c' a' =>
        simp at heq
        rw [List.all_cons, Bool.and_eq_true] at ha
        rcases heq with ⟨rfl, rfl⟩
        exact Or.inr ⟨ha.1, a', r, ha.2, hp, rfl⟩

theorem emailMatch_iff (l : List Char) :
    emailMatch l = true ↔
      ∃ a r, a ≠ [] ∧ a.all emailChar = true ∧ dotTailPlus r = true ∧ l = a ++ '@' :: r := by
  cases l with
  | nil =>
    simp only [emailMatch]
    constructor
    · intro h; exact absurd h (by simp)
    · rintro ⟨a, r, _, _, _, h⟩
      exact absurd h.symm (by simp)
  | cons c rest =>
    simp only [emailMatch, Bool.and_eq_true, afterAtStar_iff]
    constructor
    · rintro ⟨hc, a, r, ha, hp, rfl⟩
      exact ⟨c :: a, r, by simp, by simp [List.all_cons, hc, ha], hp, by simp⟩
    · rintro ⟨a, r, hane, ha, hp, heq⟩
      cases a with
      | nil => exact absurd rfl hane
      | cons c' a' =>
        simp at heq
        rw [List.all_cons, Bool.and_eq_true] at ha
        rcases heq with ⟨rfl, rfl⟩
        exact ⟨ha.1, a', r, ha.2, hp, rfl⟩

/-- The full language of `EMAIL_RE` under `re.match`: either the three
anchored groups span the whole string, or they span everything but one
final newline (Python's `$`). -/
theorem emailMatch_lang (l : List Char) :
    emailMatch l = true ↔
      ((∃ a b c : List Char, a ≠ [] ∧ b ≠ [] ∧ c ≠ [] ∧
          a.all emailChar = true ∧ b.all emailChar = true ∧ c.all emailChar = true ∧
          l = a ++ '@' :: b ++ '.' :: c) ∨
        (∃ a b c : List Char, a ≠ [] ∧ b ≠ [] ∧ c ≠ [] ∧
          a.all emailChar = true ∧ b.all emailChar = true ∧ c.all emailChar = true ∧
          l = (a ++ '@' :: b ++ '.' :: c) ++ ['\n'])) := by
  rw [emailMatch_iff]
  constructor
  · rintro ⟨a, r, hane, ha, hdp, rfl⟩
    rw [dotTailPlus_iff] at hdp
    rcases hdp with ⟨b, r2, hbne, hb, hp, rfl⟩
    rw [tailPlus_iff] at hp
    rcases hp with ⟨hcne, hc⟩ | ⟨u, hune, hu, rfl⟩
    · exact Or.inl ⟨a, b, r2, hane, hbne, hcne, ha, hb, hc, by simp⟩
    · refine Or.inr ⟨a, b, u, hane, hbne, hune, ha, hb, hu, ?_⟩
      simp [List.append_assoc]
  · rintro (⟨a, b, c, hane, hbne, hcne, ha, hb, hc, rfl⟩ |
            ⟨a, b, c, hane, hbne, hcne, ha, hb, hc, rfl⟩)
    · refine ⟨a, b ++ '.' :: c, hane, ha, ?_, by simp⟩
      rw [dotTailPlus_iff]
      exact ⟨b, c, hbne, hb, by rw [tailPlus_iff]; exact Or.inl ⟨hcne, hc⟩, rfl⟩
    · refine ⟨a, b ++ '.' :: (c ++ ['\n']), hane, ha, ?_, by simp [List.append_assoc]⟩
      rw [dotTailPlus_iff]
      refine ⟨b, c ++ ['\n'], hbne, hb, ?_, rfl⟩
      rw [tailPlus_iff]
      exact Or.inr ⟨c, hcne, hc, rfl⟩

/-- C4 counterexample.  Python's `$` also matches just before a final
newline, so `EMAIL_RE` accepts a string ending in a newline even though
a newline is whitespace and can belong to none of the three groups. -/
theorem c4_counterexample :
    validate_email "a@b.co\n" = true ∧ ¬ EmailSpec "a@b.co\n" := by
  refine ⟨by decide, ?_⟩
  rintro ⟨a, b, c, _, _, _, ha, hb, hc, heq⟩
  have hmem : '\n' ∈ ("a@b.co\n" : String).data := by decide
  rw [heq] at hmem
  rcases List.mem_append.mp hmem with h | h
  · rcases List.mem_append.mp h with h | h
    · exact absurd (List.all_eq_true.mp ha _ h) (by decide)
    · rcases List.mem_cons.mp h with h | h
      · exact absurd h (by decide)
      · exact absurd (List.all_eq_true.mp hb _ h) (by decide)
  · rcases List.mem_cons.mp h with h | h
    · exact absurd h (by decide)
    · exact absurd (List.all_eq_true.mp hc _ h) (by decide)

/-- C4 amended.  `validate_email` accepts exactly the strings of the
claimed anchored shape, plus those same strings followed by one final
newline (the semantics of `$` in Python's `re`); the three concrete
examples of the claim behave as stated. -/
theorem c4_email_pattern (s : String) :
    (validate_email s = true ↔ (EmailSpec s ∨ ∃ t, EmailSpec t ∧ s = t ++ "\n")) ∧
    validate_email "a@b.co" = true ∧ validate_email "a@b" = false ∧
    validate_email "a b@c.d" = false := by
  have hnl : ("\n" : String).data = ['\n'] := by decide
  refine ⟨?_, by decide, by decide, by decide⟩
  rw [show validate_email s = emailMatch s.data from rfl, emailMatch_lang]
  constructor
  · rintro (⟨a, b, c, h1, h2, h3, h4, h5, h6, heq⟩ | ⟨a, b, c, h1, h2, h3, h4, h5, h6, heq⟩)
    · exact Or.inl ⟨a, b, c, h1, h2, h3, h4, h5, h6, heq⟩
    · refine Or.inr ⟨⟨a ++ '@' :: b ++ '.' :: c⟩, ⟨a, b, c, h1, h2, h3, h4, h5, h6, rfl⟩, ?_⟩
      apply String.ext
      rw [String.data_append, hnl]
      exact heq
  · rintro (⟨a, b, c, h1, h2, h3, h4, h5, h6, heq⟩ | ⟨t, ⟨a, b, c, h1, h2, h3, h4, h5, h6, heqt⟩, rfl⟩)
    · exact Or.inl ⟨a, b, c, h1, h2, h3, h4, h5, h6, heq⟩
    · refine Or.inr ⟨a, b, c, h1, h2, h3, h4, h5, h6, ?_⟩
      rw [String.data_append, hnl, heqt]

/-- C5 counterexample.  The class `\s` in `PHONE_RE` is all whitespace,
not just the space character: a tab-led seven-character string passes
the code's check but not the claim's character set. -/
theorem c5_counterexample :
    validate_phone "\t234567" = true ∧ SpecPhone "\t234567" = false := by decide

/-- C5 amended.  `validate_phone` accepts exactly the strings of length
at least seven whose characters are digits, whitespace (space, tab,
newline, carriage return, vertical tab, form feed), `+`, `-`, `(`, `)`;
the three concrete examples of the claim behave as stated. -/
theorem c5_phone_pattern (s : String) :
    (validate_phone s = true ↔ (7 ≤ s.length ∧ s.data.all phoneChar = true)) ∧
    validate_phone "123-456-7890" = true ∧ validate_phone "12345" = false ∧
    validate_phone "12a4567" = false := by
  refine ⟨?_, by decide, by decide, by decide⟩
  rw [show validate_phone s = phoneMatch s.data from rfl, phoneMatch_iff]
  rfl

/-! ## Characterization of the strptime matcher -/

theorem inRange_le {lo hi : Nat} {c : Char} (h : inRange lo hi c = true) :
    lo ≤ c.toNat ∧ c.toNat ≤ hi := by
  simpa [inRange, Bool.and_eq_true, decide_eq_true_iff] using h

theorem digitVal_le {c : Char} (h : isDig c = true) : digitVal c ≤ 9 := by
  have := inRange_le h
  unfold digitVal
  omega

theorem altM10_spec {l : List Char} {m : Nat} {rest : List Char}
    (h : altM10 l = some (m, rest)) :
    10 ≤ m ∧ m ≤ 12 ∧ l = digitChar (m / 10) :: digitChar (m % 10) :: rest := by
  cases l with
  | nil => simp [altM10] at h
  | cons c1 t =>
    cases t with
    | nil => simp [altM10] at h
    | cons c2 r =>
      simp only [altM10] at h
      by_cases hc : (c1 == '1' && inRange 48 50 c2) = true
      · rw [if_pos hc] at h
        rw [Bool.and_eq_true, beq_iff_eq] at hc
        obtain ⟨rfl, hr⟩ := hc
        have hb := inRange_le hr
        have hdig : isDig c2 = true := by
          simp [isDig, inRange, decide_eq_true_iff]
          omega
        simp only [Option.some.injEq, Prod.mk.injEq] at h
        obtain ⟨hm, rfl⟩ := h
        have hv : digitVal c2 ≤ 2 := by unfold digitVal; omega
        refine ⟨by omega, by omega, ?_⟩
        have e1 : m / 10 = 1 := by omega
        have e2 : m % 10 = digitVal c2 := by omega
        rw [e1, e2, digitChar_digitVal hdig]
        rfl
      · rw [if_neg hc] at h
        exact absurd h (by simp)

theorem altM0_spec {l : List Char} {m : Nat} {rest : List Char}
    (h : altM0 l = some (m, rest)) :
    1 ≤ m ∧ m ≤ 9 ∧ l = digitChar (m / 10) :: digitChar (m % 10) :: rest := by
  cases l with
  | nil => simp [altM0] at h
  | cons c1 t =>
    cases t with
    | nil => simp [altM0] at h
    | cons c2 r =>
      simp only [altM0] at h
      by_cases hc : (c1 == '0' && inRange 49 57 c2) = true
      · rw [if_pos hc] at h
        rw [Bool.and_eq_true, beq_iff_eq] at hc
        obtain ⟨rfl, hr⟩ := hc
        have hb := inRange_le hr
        have hdig : isDig c2 = true := by
          simp [isDig, inRange, decide_eq_true_iff]
          omega
        simp only [Option.some.injEq, Prod.mk.injEq] at h
        obtain ⟨hm, rfl⟩ := h
        have hv : 1 ≤ digitVal c2 ∧ digitVal c2 ≤ 9 := by unfold digitVal; omega
        refine ⟨by omega, by omega, ?_⟩
        have e1 : m / 10 = 0 := by omega
        have e2 : m % 10 = digitVal c2 := by omega
        rw [e1, e2, digitChar_digitVal hdig]
        rfl
      · rw [if_neg hc] at h
        exact absurd h (by simp)

theorem altM1_spec {l : List Char} {m : Nat} {rest : List Char}
    (h : altM1 l = some (m, rest)) :
    1 ≤ m ∧ m ≤ 9 ∧ l = digitChar m :: rest := by
  cases l with
  | nil => simp [altM1] at h
  | cons c1 r =>
    simp only [altM1] at h
    by_cases hc : inRange 49 57 c1 = true
    · rw [if_pos hc] at h
      have hb := inRange_le hc
      have hdig : isDig c1 = true := by
        simp [isDig, inRange, decide_eq_true_iff]
        omega
      simp only [Option.some.injEq, Prod.mk.injEq] at h
      obtain ⟨hm, rfl⟩ := h
      have hv : 1 ≤ digitVal c1 ∧ digitVal c1 ≤ 9 := by unfold digitVal; omega
      subst hm
      exact ⟨by omega, by omega, by rw [digitChar_digitVal hdig]⟩
    · rw [if_neg hc] at h
      exact absurd h (by simp)

theorem altD3_spec {l : List Char} {d : Nat} {rest : List Char}
    (h : altD3 l = some (d, rest)) :
    30 ≤ d ∧ d ≤ 31 ∧ l = digitChar (d / 10) :: digitChar (d % 10) :: rest := by
  cases l with
  | nil => simp [altD3] at h
  | cons c1 t =>
    cases t with
    | nil => simp [altD3] at h
    | cons c2 r =>
      simp only [altD3] at h
      by_cases hc : (c1 == '3' && inRange 48 49 c2) = true
      · rw [if_pos hc] at h
        rw [Bool.and_eq_true, beq_iff_eq] at hc
        obtain ⟨rfl, hr⟩ := hc
        have hb := inRange_le hr
        have hdig : isDig c2 = true := by
          simp [isDig, inRange, decide_eq_true_iff]
          omega
        simp only [Option.some.injEq, Prod.mk.injEq] at h
        obtain ⟨hm, rfl⟩ := h
        have hv : digitVal c2 ≤ 1 := by unfold digitVal; omega
        refine ⟨by omega, by omega, ?_⟩
        have e1 : d / 10 = 3 := by omega
        have e2 : d % 10 = digitVal c2 := by omega
        rw [e1, e2, digitChar_digitVal hdig]
        rfl
      · rw [if_neg hc] at h
        exact absurd h (by simp)

theorem altD12_spec {l : List Char} {d : Nat} {rest : List Char}
    (h : altD12 l = some (d, rest)) :
    10 ≤ d ∧ d ≤ 29 ∧ l = digitChar (d / 10) :: digitChar (d % 10) :: rest := by
  cases l with
  | nil => simp [altD12] at h
  | cons c1 t =>
    cases t with
    | nil => simp [altD12] at h
    | cons c2 r =>
      simp only [altD12] at h
      by_cases hc : (inRange 49 50 c1 && isDig c2) = true
      · rw [if_pos hc] at h
        rw [Bool.and_eq_true] at hc
        obtain ⟨h1, h2⟩ := hc
        have hb1 := inRange_le h1
        have hb2 := inRange_le h2
        have hdig1 : isDig c1 = true := by
          simp [isDig, inRange, decide_eq_true_iff]
          omega
        simp only [Option.some.injEq, Prod.mk.injEq] at h
        obtain ⟨hm, rfl⟩ := h
        have hv1 : 1 ≤ digitVal c1 ∧ digitVal c1 ≤ 2 := by unfold digitVal; omega
        have hv2 : digitVal c2 ≤ 9 := by unfold digitVal; omega
        refine ⟨by omega, by omega, ?_⟩
        have e1 : d / 10 = digitVal c1 := by omega
        have e2 : d % 10 = digitVal c2 := by omega
        rw [e1, e2, digitChar_digitVal hdig1, digitChar_digitVal h2]
      · rw [if_neg hc] at h
        exact absurd h (by simp)

theorem altD0_spec {l : List Char} {d : Nat} {rest : List Char}
    (h : altD0 l = some (d, rest)) :
    1 ≤ d ∧ d ≤ 9 ∧ l = digitChar (d / 10) :: digitChar (d % 10) :: rest := by
  cases l with
  | nil => simp [altD0] at h
  | cons c1 t =>
    cases t with
    | nil => simp [altD0] at h
    | cons c2 r =>
      simp only [altD0] at h
      by_cases hc : (c1 == '0' && inRange 49 57 c2) = true
      · rw [if_pos hc] at h
        rw [Bool.and_eq_true, beq_iff_eq] at hc
        obtain ⟨rfl, hr⟩ := hc
        have hb := inRange_le hr
        have hdig : isDig c2 = true := by
          simp [isDig, inRange, decide_eq_true_iff]
          omega
        simp only [Option.some.injEq, Prod.mk.injEq] at h
        obtain ⟨hm, rfl⟩ := h
        have hv : 1 ≤ digitVal c2 ∧ digitVal c2 ≤ 9 := by unfold digitVal; omega
        refine ⟨by omega, by omega, ?_⟩
        have e1 : d / 10 = 0 := by omega
        have e2 : d % 10 = digitVal c2 := by omega
        rw [e1, e2, digitChar_digitVal hdig]
        rfl
      · rw [if_neg hc] at h
        exact absurd h (by simp)

theorem altD1_spec {l : List Char} {d : Nat} {rest : List Char}
    (h : altD1 l = some (d, rest)) :
    1 ≤ d ∧ d ≤ 9 ∧ l = digitChar d :: rest := by
  cases l with
  | nil => simp [altD1] at h
  | cons c1 r =>
    simp only [altD1] at h
    by_cases hc : inRange 49 57 c1 = true
    · rw [if_pos hc] at h
      have hb := inRange_le hc
      have hdig : isDig c1 = true := by
        simp [isDig, inRange, decide_eq_true_iff]
        omega
      simp only [Option.some.injEq, Prod.mk.injEq] at h
      obtain ⟨hm, rfl⟩ := h
      have hv : 1 ≤ digitVal c1 ∧ digitVal c1 ≤ 9 := by unfold digitVal; omega
      subst hm
      exact ⟨by omega, by omega, by rw [digitChar_digitVal hdig]⟩
    · rw [if_neg hc] at h
      exact absurd h (by simp)

theorem matchYear_spec {l : List Char} {y : Nat} {rest : List Char}
    (h : matchYear l = some (y, rest)) :
    y ≤ 9999 ∧
      l = digitChar (y / 1000) :: digitChar (y / 100 % 10) ::
        digitChar (y / 10 % 10) :: digitChar (y % 10) :: rest := by
  cases l with
  | nil => simp [matchYear] at h
  | cons a t1 =>
    cases t1 with
    | nil => simp [matchYear] at h
    | cons b t2 =>
      cases t2 with
      | nil => simp [matchYear] at h
      | cons c t3 =>
        cases t3 with
        | nil => simp [matchYear] at h
        | cons d r =>
          simp only [matchYear] at h
          by_cases hc : (isDig a && isDig b && isDig c && isDig d) = true
          · rw [if_pos hc] at h
            rw [Bool.and_eq_true, Bool.and_eq_true, Bool.and_eq_true] at hc
            obtain ⟨⟨⟨ha, hb⟩, hcd⟩, hd⟩ := hc
            have va := digitVal_le ha
            have vb := digitVal_le hb
            have vc := digitVal_le hcd
            have vd := digitVal_le hd
            simp only [Option.some.injEq, Prod.mk.injEq] at h
            obtain ⟨hy, rfl⟩ := h
            subst hy
            refine ⟨by omega, ?_⟩
            have e1 : (1000 * digitVal a + 100 * digitVal b + 10 * digitVal c + digitVal d) / 1000
                = digitVal a := by omega
            have e2 : (1000 * digitVal a + 100 * digitVal b + 10 * digitVal c + digitVal d) / 100 % 10
                = digitVal b := by omega
            have e3 : (1000 * digitVal a + 100 * digitVal b + 10 * digitVal c + digitVal d) / 10 % 10
                = digitVal c := by omega
            have e4 : (1000 * digitVal a + 100 * digitVal b + 10 * digitVal c + digitVal d) % 10
                = digitVal d := by omega
            rw [e1, e2, e3, e4, digitChar_digitVal ha, digitChar_digitVal hb,
              digitChar_digitVal hcd, digitChar_digitVal hd]
          · rw [if_neg hc] at h
            exact absurd h (by simp)

theorem afterMonth_spec {o : Option (Nat × List Char)} {m d : Nat} {rest : List Char}
    (h : afterMonth o = some (m, d, rest)) :
    ∃ r2, o = some (m, '-' :: r2) ∧ dayMatch r2 = some (d, rest) := by
  cases o with
  | none => simp [afterMonth] at h
  | some p =>
    obtain ⟨m', r'⟩ := p
    cases r' with
    | nil => simp [afterMonth] at h
    | cons c r2 =>
      simp only [afterMonth] at h
      by_cases hc : (c == '-') = true
      · rw [if_pos hc] at h
        rw [beq_iff_eq] at hc
        subst hc
        rw [Option.map_eq_some'] at h
        obtain ⟨p, hp, hpe⟩ := h
        obtain ⟨dv, rv⟩ := p
        simp only [Prod.mk.injEq] at hpe
        obtain ⟨rfl, rfl, rfl⟩ := hpe
        exact ⟨r2, rfl, hp⟩
      · rw [if_neg hc] at h
        exact absurd h (by simp)

theorem dayMatch_spec {l : List Char} {d : Nat} {rest : List Char}
    (h : dayMatch l = some (d, rest)) :
    1 ≤ d ∧ d ≤ 31 ∧
      (l = digitChar (d / 10) :: digitChar (d % 10) :: rest ∨
        (d ≤ 9 ∧ l = digitChar d :: rest)) := by
  unfold dayMatch at h
  cases h3 : altD3 l with
  | some v =>
    rw [h3] at h
    simp only [Option.some.injEq] at h
    subst h
    obtain ⟨r1, r2, r3⟩ := altD3_spec h3
    exact ⟨by omega, by omega, Or.inl r3⟩
  | none =>
    rw [h3] at h
    cases h12 : altD12 l with
    | some v =>
      rw [h12] at h
      simp only [Option.some.injEq] at h
      subst h
      obtain ⟨r1, r2, r3⟩ := altD12_spec h12
      exact ⟨by omega, by omega, Or.inl r3⟩
    | none =>
      rw [h12] at h
      cases h0 : altD0 l with
      | some v =>
        rw [h0] at h
        simp only [Option.some.injEq] at h
        subst h
        obtain ⟨r1, r2, r3⟩ := altD0_spec h0
        exact ⟨by omega, by omega, Or.inl r3⟩
      | none =>
        rw [h0] at h
        obtain ⟨r1, r2, r3⟩ := altD1_spec h
        exact ⟨by omega, by omega, Or.inr ⟨r2, r3⟩⟩

theorem mdMatch_spec {l : List Char} {m d : Nat} {rest : List Char}
    (h : mdMatch l = some (m, d, rest)) :
    1 ≤ m ∧ m ≤ 12 ∧
      ∃ mcs r2,
        (mcs = [digitChar (m / 10), digitChar (m % 10)] ∨ (m ≤ 9 ∧ mcs = [digitChar m])) ∧
        l = mcs ++ '-' :: r2 ∧ dayMatch r2 = some (d, rest) := by
  unfold mdMatch at h
  cases h10 : afterMonth (altM10 l) with
  | some v =>
    rw [h10] at h
    simp only [Option.some.injEq] at h
    subst h
    obtain ⟨r2, ha, hd⟩ := afterMonth_spec h10
    obtain ⟨b1, b2, b3⟩ := altM10_spec ha
    exact ⟨by omega, by omega,
      [digitChar (m / 10), digitChar (m % 10)], r2, Or.inl rfl, by simpa using b3, hd⟩
  | none =>
    rw [h10] at h
    cases h0 : afterMonth (altM0 l) with
    | some v =>
      rw [h0] at h
      simp only [Option.some.injEq] at h
      subst h
      obtain ⟨r2, ha, hd⟩ := afterMonth_spec h0
      obtain ⟨b1, b2, b3⟩ := altM0_spec ha
      exact ⟨by omega, by omega,
        [digitChar (m / 10), digitChar (m % 10)], r2, Or.inl rfl, by simpa using b3, hd⟩
    | none =>
      rw [h0] at h
      obtain ⟨r2, ha, hd⟩ := afterMonth_spec h
      obtain ⟨b1, b2, b3⟩ := altM1_spec ha
      exact ⟨by omega, by omega,
        [digitChar m], r2, Or.inr ⟨b2, rfl⟩, by simpa using b3, hd⟩

theorem matchYear_pad {y : Nat} (h : y ≤ 9999) (r : List Char) :
    matchYear (digitChar (y / 1000) :: digitChar (y / 100 % 10) ::
      digitChar (y / 10 % 10) :: digitChar (y % 10) :: r) = some (y, r) := by
  have b1 : y / 1000 ≤ 9 := by omega
  have b2 : y / 100 % 10 ≤ 9 := by omega
  have b3 : y / 10 % 10 ≤ 9 := by omega
  have b4 : y % 10 ≤ 9 := by omega
  simp only [matchYear]
  rw [if_pos]
  · rw [digitVal_digitChar b1, digitVal_digitChar b2, digitVal_digitChar b3,
      digitVal_digitChar b4]
    have : 1000 * (y / 1000) + 100 * (y / 100 % 10) + 10 * (y / 10 % 10) + y % 10 = y := by
      omega
    rw [this]
  · rw [isDig_digitChar b1, isDig_digitChar b2, isDig_digitChar b3, isDig_digitChar b4]
    rfl

theorem dayMatch_pad {d : Nat} (h1 : 1 ≤ d) (h2 : d ≤ 31) (r : List Char) :
    dayMatch (digitChar (d / 10) :: digitChar (d % 10) :: r) = some (d, r) := by
  interval_cases d <;> rfl

theorem dayMatch_single {d : Nat} (h1 : 1 ≤ d) (h2 : d ≤ 9) :
    dayMatch [digitChar d] = some (d, []) := by
  interval_cases d <;> rfl

theorem mdMatch_pad {m : Nat} (h1 : 1 ≤ m) (h2 : m ≤ 12) {dcs : List Char} {d : Nat}
    {rest : List Char} (hd : dayMatch dcs = some (d, rest)) :
    mdMatch (digitChar (m / 10) :: digitChar (m % 10) :: '-' :: dcs) = some (m, d, rest) := by
  have hm10 : m % 10 ≤ 9 := by omega
  have ht2 : (digitChar (m % 10)).toNat = 48 + m % 10 := digitChar_toNat hm10
  rcases Nat.lt_or_ge m 10 with hlt | hge
  · have e1 : m / 10 = 0 := by omega
    have e2 : m % 10 = m := by omega
    rw [e1, e2]
    have e10 : altM10 (digitChar 0 :: digitChar m :: '-' :: dcs) = none := by
      simp only [altM10]
      apply if_neg
      rw [Bool.and_eq_true, beq_iff_eq]
      rintro ⟨h01, -⟩
      exact absurd h01 (by decide)
    have e0 : altM0 (digitChar 0 :: digitChar m :: '-' :: dcs) = some (m, '-' :: dcs) := by
      simp only [altM0]
      rw [if_pos]
      · rw [digitVal_digitChar (by omega)]
      · rw [Bool.and_eq_true]
        refine ⟨by decide, ?_⟩
        simp only [inRange, Bool.and_eq_true, decide_eq_true_iff]
        rw [e2] at ht2
        omega
    unfold mdMatch
    rw [e10, e0]
    simp [afterMonth, hd]
  · have e1 : m / 10 = 1 := by omega
    rw [e1]
    have e10 : altM10 (digitChar 1 :: digitChar (m % 10) :: '-' :: dcs)
        = some (m, '-' :: dcs) := by
      simp only [altM10]
      rw [if_pos]
      · rw [digitVal_digitChar hm10]
        have : 10 + m % 10 = m := by omega
        rw [this]
      · rw [Bool.and_eq_true]
        refine ⟨by decide, ?_⟩
        simp only [inRange, Bool.and_eq_true, decide_eq_true_iff]
        omega
    unfold mdMatch
    rw [e10]
    simp [afterMonth, hd]

theorem mdMatch_single {m : Nat} (h1 : 1 ≤ m) (h2 : m ≤ 9) {dcs : List Char} {d : Nat}
    {rest : List Char} (hd : dayMatch dcs = some (d, rest)) :
    mdMatch (digitChar m :: '-' :: dcs) = some (m, d, rest) := by
  have ht : (digitChar m).toNat = 48 + m := digitChar_toNat h2
  have e10 : altM10 (digitChar m :: '-' :: dcs) = none := by
    simp only [altM10]
    apply if_neg
    rw [Bool.and_eq_true]
    rintro ⟨-, hr⟩
    have h45 : ('-').toNat = 45 := by decide
    have := inRange_le hr
    omega
  have e0 : altM0 (digitChar m :: '-' :: dcs) = none := by
    simp only [altM0]
    apply if_neg
    rw [Bool.and_eq_true, beq_iff_eq]
    rintro ⟨hh, -⟩
    have h48 : ('0').toNat = 48 := by decide
    have := congrArg Char.toNat hh
    omega
  have e1 : altM1 (digitChar m :: '-' :: dcs) = some (m, '-' :: dcs) := by
    simp only [altM1]
    rw [if_pos]
    · rw [digitVal_digitChar h2]
    · simp only [inRange, Bool.and_eq_true, decide_eq_true_iff]
      omega
  unfold mdMatch
  rw [e10, e0, e1]
  simp [afterMonth, hd]

theorem dateOk_iff {y m d : Nat} :
    dateOk y m d = true ↔
      (1 ≤ y ∧ y ≤ 9999 ∧ 1 ≤ m ∧ m ≤ 12 ∧ 1 ≤ d ∧ d ≤ daysInMonth y m) := by
  simp only [dateOk, Bool.and_eq_true, decide_eq_true_iff]
  tauto

theorem daysInMonth_le (y m : Nat) : daysInMonth y m ≤ 31 := by
  unfold daysInMonth
  split
  · split <;> omega
  · split <;> omega

theorem hyphen_data : ("-" : String).data = ['-'] := by decide

theorem pad2_data (n : Nat) : (pad2 n).data = [digitChar (n / 10), digitChar (n % 10)] := rfl

theorem pad4_data (n : Nat) :
    (pad4 n).data = [digitChar (n / 1000), digitChar (n / 100 % 10),
      digitChar (n / 10 % 10), digitChar (n % 10)] := rfl

theorem digitStr_data (n : Nat) : (digitStr n).data = [digitChar n] := rfl

theorem flex_data (y : Nat) (ms ds : String) :
    (pad4 y ++ "-" ++ ms ++ "-" ++ ds).data =
      digitChar (y / 1000) :: digitChar (y / 100 % 10) :: digitChar (y / 10 % 10) ::
        digitChar (y % 10) :: '-' :: (ms.data ++ '-' :: ds.data) := by
  rw [String.data_append, String.data_append, String.data_append, String.data_append,
    hyphen_data, pad4_data]
  simp [List.append_assoc]

theorem validate_birthday_iff_flex (s : String) :
    validate_birthday s = true ↔ FlexDate s := by
  constructor
  · intro h
    unfold validate_birthday at h
    cases hst : strptimeYmd s with
    | none => rw [hst] at h; simp at h
    | some q =>
      obtain ⟨y, m, d, rest⟩ := q
      rw [hst] at h
      simp only [Bool.and_eq_true, List.isEmpty_iff] at h
      obtain ⟨hrest, hok⟩ := h
      subst hrest
      unfold strptimeYmd at hst
      cases hy : matchYear s.data with
      | none => rw [hy] at hst; simp at hst
      | some p =>
        obtain ⟨y', r'⟩ := p
        rw [hy] at hst
        cases r' with
        | nil => simp at hst
        | cons c r2 =>
          have hst2 : (if (c == '-') = true then
              Option.map (fun p => (y', p.1, p.2.1, p.2.2)) (mdMatch r2)
            else none) = some (y, m, d, ([] : List Char)) := hst
          by_cases hc : (c == '-') = true
          · rw [if_pos hc] at hst2
            rw [beq_iff_eq] at hc
            subst hc
            rw [Option.map_eq_some'] at hst2
            obtain ⟨p2, hp2, hpe⟩ := hst2
            obtain ⟨m2, q2⟩ := p2
            obtain ⟨d2, rest2⟩ := q2
            simp only [Prod.mk.injEq] at hpe
            obtain ⟨rfl, rfl, rfl, rfl⟩ := hpe
            obtain ⟨hy99, hydata⟩ := matchYear_spec hy
            obtain ⟨hm1, hm12, mcs, r3, hmrep, hr2, hdm⟩ := mdMatch_spec hp2
            obtain ⟨hd1, hd31, hdrep⟩ := dayMatch_spec hdm
            rcases hmrep with hm | ⟨hm9, hm⟩ <;> rcases hdrep with hd | ⟨hd9, hd⟩
            · refine ⟨y', m2, d2, pad2 m2, pad2 d2, hok, Or.inl rfl, Or.inl rfl, ?_⟩
              apply String.ext
              rw [flex_data, pad2_data, pad2_data, hydata, hr2, hm, hd]
            · refine ⟨y', m2, d2, pad2 m2, digitStr d2, hok, Or.inl rfl, Or.inr ⟨hd9, rfl⟩, ?_⟩
              apply String.ext
              rw [flex_data, pad2_data, digitStr_data, hydata, hr2, hm, hd]
            · refine ⟨y', m2, d2, digitStr m2, pad2 d2, hok, Or.inr ⟨hm9, rfl⟩, Or.inl rfl, ?_⟩
              apply String.ext
              rw [flex_data, digitStr_data, pad2_data, hydata, hr2, hm, hd]
            · refine ⟨y', m2, d2, digitStr m2, digitStr d2, hok, Or.inr ⟨hm9, rfl⟩,
                Or.inr ⟨hd9, rfl⟩, ?_⟩
              apply String.ext
              rw [flex_data, digitStr_data, digitStr_data, hydata, hr2, hm, hd]
          · rw [if_neg hc] at hst2
            exact absurd hst2 (by simp)
  · rintro ⟨y, m, d, ms, ds, hok, hmrep, hdrep, rfl⟩
    obtain ⟨o1, o2, o3, o4, o5, o6⟩ := dateOk_iff.mp hok
    have hd31 : d ≤ 31 := le_trans o6 (daysInMonth_le y m)
    have hdm : dayMatch ds.data = some (d, []) := by
      rcases hdrep with hd | ⟨hd9, hd⟩
      · rw [hd, pad2_data]
        exact dayMatch_pad o5 hd31 []
      · rw [hd, digitStr_data]
        exact dayMatch_single o5 hd9
    have hmd : mdMatch (ms.data ++ '-' :: ds.data) = some (m, d, []) := by
      rcases hmrep with hm | ⟨hm9, hm⟩
      · rw [hm, pad2_data]
        exact mdMatch_pad o3 o4 hdm
      · rw [hm, digitStr_data]
        exact mdMatch_single o3 hm9 hdm
    have hmy : matchYear (pad4 y ++ "-" ++ ms ++ "-" ++ ds).data
        = some (y, '-' :: (ms.data ++ '-' :: ds.data)) := by
      rw [flex_data]
      exact matchYear_pad o2 _
    have hst : strptimeYmd (pad4 y ++ "-" ++ ms ++ "-" ++ ds) = some (y, m, d, []) := by
      unfold strptimeYmd
      rw [hmy]
      show Option.map (fun p => (y, p.1, p.2.1, p.2.2)) (mdMatch (ms.data ++ '-' :: ds.data))
        = some (y, m, d, ([] : List Char))
      rw [hmd]
      rfl
    unfold validate_birthday
    rw [hst]
    simp [hok]

/-- C2 counterexample.  `strptime` with `%Y-%m-%d` does not require the
month and day to be zero-padded: `"1990-5-1"` is accepted, yet it is not
the `YYYY-MM-DD` rendering of any date (every such rendering has ten
characters), so parse-then-reformat does not round-trip. -/
theorem c2_counterexample :
    validate_birthday "1990-5-1" = true ∧ ¬ IsCanonicalDate "1990-5-1" := by
  refine ⟨by decide, ?_⟩
  rintro ⟨y, m, d, hok, heq⟩
  have h10 : (renderDate y m d).length = 10 := by
    unfold renderDate
    rw [String.length_append, String.length_append, String.length_append,
      String.length_append]
    rfl
  have h8 : ("1990-5-1" : String).length = 8 := by decide
  rw [heq, h10] at h8
  exact absurd h8 (by decide)

/-- C2 amended.  `validate_birthday s` is true iff `s` is `Y-M-D` for a
valid calendar date with the year written as exactly four digits and the
month and the day each written either zero-padded to two digits or as a
bare single digit; zero-padding is optional, so the strict round-trip
property fails, while malformed dates (month 13, day 32, day 30 of
February) and all other formats are still rejected. -/
theorem c2_flexible_format (s : String) :
    (validate_birthday s = true ↔ FlexDate s) ∧
    validate_birthday "1990-13-40" = false ∧
    validate_birthday "1990-02-32" = false ∧
    validate_birthday "1990-02-30" = false ∧
    validate_birthday "2001-04-09" = true ∧
    validate_birthday "05-12-1990" = false :=
  ⟨validate_birthday_iff_flex s, by decide, by decide, by decide, by decide, by decide⟩
